import Mathlib

/-!
Verification development for the FOREX trading backend.

This file gives a shallow embedding, over exact rational arithmetic, of the
market-analysis engine (`ai/marketAnalysis.js`), the candle-persistence and
auto-trade logic (`services/derivIntegration.js`), and the WebSocket
reconnection logic (`services/derivIntegration-simples.js`, class `DerivAPI`),
together with proofs of the specified properties.

Conventions used throughout:
* JavaScript numbers are modelled as `ℚ`.  Where the source can produce the
  IEEE non-finite values `NaN`/`Infinity` (an unguarded division by zero),
  the embedding uses `Option ℚ` with `none` standing for the non-finite
  result, and each consumer of such a value reproduces the JavaScript
  comparison semantics (every `<`/`>`/`<=`/`>=` comparison against a
  non-finite or `undefined` value that the source relies on is `false`,
  except where noted).
* `Math.random()` is modelled by an explicit stream `rng : ℕ → ℚ` and
  `Date.now()` by an explicit `now : ℤ` argument.
* `Math.sqrt` (used only by the Bollinger-band computation) is modelled by an
  explicit function argument `sqrtFn : ℚ → ℚ`; no claim in this file depends
  on its behaviour.
* Database access is modelled by passing the query result explicitly:
  `none` models a query that throws, `some rows` a query returning `rows`.
-/

namespace ForexTrade

/-- Model of JavaScript `parseFloat(x.toFixed(3))`: round to 3 decimal
places.  ECMAScript `toFixed` picks the integer `n` minimising
`|n / 10^3 - x|`, taking the larger `n` on ties, which is exactly
Mathlib's `round`. -/
def round3 (q : ℚ) : ℚ := (round (q * 1000) : ℤ) / 1000

/-- Model of `parseFloat(x.toFixed(5))` (used by `generateSimulatedData`). -/
def round5 (q : ℚ) : ℚ := (round (q * 100000) : ℤ) / 100000

/-- JavaScript `Array.prototype.slice(d)` with a possibly negative start
index: a negative `d` counts from the end of the array (clamped at 0). -/
def jsSliceFrom (l : List ℚ) (d : ℤ) : List ℚ :=
  if d < 0 then l.drop (((l.length : ℤ) + d).toNat) else l.drop d.toNat

/-- JavaScript `arr.slice(-k)`: the last `k` elements (whole array when
`k ≥ length`).  Used for the `slice(-3)` calls in `findSupportResistance`. -/
def lastN (l : List ℚ) (k : ℕ) : List ℚ := l.drop (l.length - k)

/-- `Math.max(...list)` at the (nonempty) call sites of the source; the
source never applies it to an empty window, the `[]` case is a dummy. -/
def listMax : List ℚ → ℚ
  | [] => 0
  | x :: xs => xs.foldl max x

/-- `Math.min(...list)` at the (nonempty) call sites of the source. -/
def listMin : List ℚ → ℚ
  | [] => 0
  | x :: xs => xs.foldl min x

/-! ## The indicator library (`class TechnicalIndicators`) -/

/-- `TechnicalIndicators.SMA(data, period)`: the loop
`for (i = period-1; i < data.length; i++)` pushes
`sum(data.slice(i-period+1, i+1)) / period`. -/
def SMA (data : List ℚ) (period : ℕ) : List ℚ :=
  (List.range' (period - 1) (data.length - (period - 1))).map fun i =>
    (((data.drop (i + 1 - period)).take period).sum) / period

/-- `TechnicalIndicators.EMA(data, period)`: `ema[0]` is the mean of the
first `period` points; `ema[i] = (data[i+period-1] - ema[i-1])*k + ema[i-1]`
with `k = 2/(period+1)`, for `i` in `[1, data.length - period + 1)`.
The elements `data[period], …, data[len-1]` consumed by the loop are
exactly `data.drop period`, so the loop is a `scanl`. -/
def EMA (data : List ℚ) (period : ℕ) : List ℚ :=
  let multiplier : ℚ := 2 / ((period : ℚ) + 1)
  let e0 : ℚ := ((data.take period).sum) / period
  (data.drop period).scanl (fun e x => (x - e) * multiplier + e) e0

structure MACDResult where
  macd : List ℚ
  signal : List ℚ
  histogram : List ℚ
  deriving DecidableEq

/-- `TechnicalIndicators.MACD`.  Note that in the source
`sizeDiff = slowEMA.length - fastEMA.length` is negative (the fast EMA is
the longer series), so `fastEMA.slice(sizeDiff)` keeps the *last*
`|sizeDiff|` elements; `jsSliceFrom` reproduces that.  The source's
`alignedFastEMA.map((fast, i) => fast - slowEMA[i])` is a `zipWith` at
every input length the pipeline uses (`slowEMA` is at least as long as the
aligned series once `data` has ≥ 39 points; the pipeline guarantees ≥ 50). -/
def MACD (data : List ℚ) (fastPeriod slowPeriod signalPeriod : ℕ) : MACDResult :=
  let fastEMA := EMA data fastPeriod
  let slowEMA := EMA data slowPeriod
  let sizeDiff : ℤ := (slowEMA.length : ℤ) - (fastEMA.length : ℤ)
  let alignedFastEMA := jsSliceFrom fastEMA sizeDiff
  let macdLine := alignedFastEMA.zipWith (fun f s => f - s) slowEMA
  let signalLine := EMA macdLine signalPeriod
  let macdAligned := macdLine.drop (macdLine.length - signalLine.length)
  let histogram := macdAligned.zipWith (fun m s => m - s) signalLine
  ⟨macdAligned, signalLine, histogram⟩

/-- The per-bar differences `data[i] - data[i-1]` of `TechnicalIndicators.RSI`. -/
def jsDeltas (data : List ℚ) : List ℚ :=
  List.zipWith (fun a b => b - a) data data.tail

/-- The `gains` array of `TechnicalIndicators.RSI`. -/
def jsGains (data : List ℚ) : List ℚ :=
  (jsDeltas data).map fun d => if d > 0 then d else 0

/-- The `losses` array of `TechnicalIndicators.RSI` (`Math.abs(d)` for a
negative difference `d` is `-d`). -/
def jsLosses (data : List ℚ) : List ℚ :=
  (jsDeltas data).map fun d => if d < 0 then -d else 0

/-- One pushed RSI value, `100 - 100/(1 + avgGain/avgLoss)`, under IEEE
semantics for the source's unguarded division:
* `avgLoss > 0`: an ordinary finite computation;
* `avgLoss = 0, avgGain ≠ 0`: `avgGain/0 = ±Infinity`, `100/(1+∞) = 0`,
  so the pushed value is exactly `100`;
* `avgLoss = 0, avgGain = 0`: `0/0 = NaN` and the pushed value is `NaN`,
  modelled as `none`. -/
def rsiPoint (avgGain avgLoss : ℚ) : Option ℚ :=
  if avgLoss = 0 then (if avgGain = 0 then none else some 100)
  else some (100 - 100 / (1 + avgGain / avgLoss))

/-- The RSI main loop: push `rsiPoint avgGain avgLoss`, then fold
`gains[i]`/`losses[i]` into the Wilder smoothing
`avg ← (avg*(period-1) + new)/period`. -/
def rsiLoop (period : ℕ) : ℚ → ℚ → List (ℚ × ℚ) → List (Option ℚ)
  | _, _, [] => []
  | aG, aL, gl :: rest =>
      rsiPoint aG aL ::
        rsiLoop period ((aG * ((period : ℚ) - 1) + gl.1) / period)
          ((aL * ((period : ℚ) - 1) + gl.2) / period) rest

/-- `TechnicalIndicators.RSI(data, period)`: seed the averages with the mean
of the first `period` gains/losses, then run the loop over the remaining
pairs `(gains[i], losses[i])`, `i ∈ [period, gains.length)`. -/
def RSI (data : List ℚ) (period : ℕ) : List (Option ℚ) :=
  let gains := jsGains data
  let losses := jsLosses data
  let avgGain := ((gains.take period).sum) / period
  let avgLoss := ((losses.take period).sum) / period
  rsiLoop period avgGain avgLoss ((gains.drop period).zip (losses.drop period))

structure BollingerResult where
  upper : List ℚ
  middle : List ℚ
  lower : List ℚ
  deriving DecidableEq

/-- `TechnicalIndicators.BollingerBands(data, period, stdDev)`; `Math.sqrt`
is the explicit argument `sqrtFn`. -/
def BollingerBands (sqrtFn : ℚ → ℚ) (data : List ℚ) (period : ℕ)
    (stdDev : ℚ) : BollingerResult :=
  let sma := SMA data period
  let upper := (List.range sma.length).map fun i =>
    let dataSlice := (data.drop i).take period
    let mean := sma.getD i 0
    let variance := ((dataSlice.map fun val => (val - mean) * (val - mean)).sum) / period
    mean + sqrtFn variance * stdDev
  let lower := (List.range sma.length).map fun i =>
    let dataSlice := (data.drop i).take period
    let mean := sma.getD i 0
    let variance := ((dataSlice.map fun val => (val - mean) * (val - mean)).sum) / period
    mean - sqrtFn variance * stdDev
  ⟨upper, sma, lower⟩

/-- SMA over a sequence that may contain non-finite entries (`none`):
a window containing a non-finite value sums to a non-finite value, and
dividing a non-finite value by `period` stays non-finite.  Used only for
the `%D` line of the stochastic oscillator, which no consumer reads. -/
def SMAopt (data : List (Option ℚ)) (period : ℕ) : List (Option ℚ) :=
  (List.range' (period - 1) (data.length - (period - 1))).map fun i =>
    let window := (data.drop (i + 1 - period)).take period
    if window.all Option.isSome then some ((window.filterMap id).sum / period)
    else none

structure StochResult where
  k : List (Option ℚ)
  d : List (Option ℚ)
  deriving DecidableEq

/-- `TechnicalIndicators.Stochastic`.  When `highestHigh = lowestLow` the
source's division yields a non-finite value (`none`); no consumer reads
these sequences. -/
def Stochastic (highs lows closes : List ℚ) (kPeriod dPeriod : ℕ) : StochResult :=
  let k := (List.range' (kPeriod - 1) (closes.length - (kPeriod - 1))).map fun i =>
    let highestHigh := listMax ((highs.drop (i + 1 - kPeriod)).take kPeriod)
    let lowestLow := listMin ((lows.drop (i + 1 - kPeriod)).take kPeriod)
    let currentClose := closes.getD i 0
    if highestHigh - lowestLow = 0 then none
    else some ((currentClose - lowestLow) / (highestHigh - lowestLow) * 100)
  ⟨k, SMAopt k dPeriod⟩

/-- `TechnicalIndicators.ATR`: true range per bar, then an SMA.  The three
input lists have equal length at every call site (they are projections of
the same candle list). -/
def ATR (highs lows closes : List ℚ) (period : ℕ) : List ℚ :=
  let trueRanges := (List.range' 1 (closes.length - 1)).map fun i =>
    let tr1 := highs.getD i 0 - lows.getD i 0
    let tr2 := |highs.getD i 0 - closes.getD (i - 1) 0|
    let tr3 := |lows.getD i 0 - closes.getD (i - 1) 0|
    max (max tr1 tr2) tr3
  SMA trueRanges period

/-- `TechnicalIndicators.WilliamsR`; as with `Stochastic`, a flat window
makes the division non-finite (`none`), and no consumer reads the result. -/
def WilliamsR (highs lows closes : List ℚ) (period : ℕ) : List (Option ℚ) :=
  (List.range' (period - 1) (closes.length - (period - 1))).map fun i =>
    let highestHigh := listMax ((highs.drop (i + 1 - period)).take period)
    let lowestLow := listMin ((lows.drop (i + 1 - period)).take period)
    let currentClose := closes.getD i 0
    if highestHigh - lowestLow = 0 then none
    else some ((highestHigh - currentClose) / (highestHigh - lowestLow) * (-100))

/-! ## Decision-engine data model (`class ForexAI`) -/

/-- One OHLC candle as handled by the analysis pipeline.  The JavaScript
field `open` is a Lean keyword and is rendered `opn`. -/
structure Candle where
  timestamp : ℤ
  opn : ℚ
  high : ℚ
  low : ℚ
  close : ℚ
  volume : ℤ
  deriving DecidableEq

structure IndicatorSet where
  sma20 : List ℚ
  sma50 : List ℚ
  ema12 : List ℚ
  ema26 : List ℚ
  macd : MACDResult
  rsi : List (Option ℚ)
  bollinger : BollingerResult
  stochastic : StochResult
  atr : List ℚ
  williamsR : List (Option ℚ)
  deriving DecidableEq

structure Patterns where
  doji : Bool
  hammer : Bool
  shootingStar : Bool
  engulfing : Bool
  morning_star : Bool
  evening_star : Bool
  deriving DecidableEq

structure SupportResistance where
  resistance : List ℚ
  support : List ℚ
  current_price : ℚ
  deriving DecidableEq

inductive TrendDirection
  | uptrend
  | downtrend
  | sideways
  deriving DecidableEq

/-- Result of `analyzeTrend`.  `strength` is `Math.abs` of the signed
percentage deviation; `none` stands for the `+Infinity` the source produces
when the sma50 value it divides by is zero (only possible off the sideways
branch).  The two `position` fields are `true` for `'above'`. -/
structure Trend where
  direction : TrendDirection
  strength : Option ℚ
  sma20_above : Bool
  sma50_above : Bool
  deriving DecidableEq

/-- Result of `analyzeVolume`; `volumeQuotient` is the source field
`volume_ratio`. -/
structure VolumeAnalysis where
  average_volume : ℚ
  current_volume : ℚ
  volumeQuotient : ℚ
  is_high_volume : Bool
  deriving DecidableEq

/-- The argument object of `ForexAI.makeDecision`. -/
structure AnalysisInput where
  indicators : IndicatorSet
  patterns : Patterns
  supportResistance : SupportResistance
  trend : Trend
  volumeAnalysis : VolumeAnalysis
  currentPrice : ℚ
  deriving DecidableEq

inductive TradeAction
  | buy
  | sell
  | hold
  deriving DecidableEq

inductive RiskLevel
  | low
  | medium
  | high
  deriving DecidableEq

/-- The entries of the `reasons` array of `makeDecision`, as tags; the two
trend entries carry the interpolated `trend.strength` value. -/
inductive Reason
  | rsiOversold
  | rsiOverbought
  | macdBullishCrossover
  | macdBearishCrossover
  | priceAtLowerBand
  | priceAtUpperBand
  | strongUptrend (strength : Option ℚ)
  | strongDowntrend (strength : Option ℚ)
  | bullishPattern
  | bearishPattern
  | nearSupportLevel
  | nearResistanceLevel
  | highVolumeConfirmation
  deriving DecidableEq

/-- The object returned by `makeDecision`.  `rsi_summary` is the raw last
RSI value the source formats with `toFixed(2)` (`none` = empty series or
NaN); `macd_signal_bullish`/`bb_upper_half` are `true` for the `'bullish'`
and `'upper_half'` strings. -/
structure Decision where
  action : TradeAction
  confidence : ℚ
  bullish_signals : ℚ
  bearish_signals : ℚ
  reasons : List Reason
  rsi_summary : Option ℚ
  macd_signal_bullish : Bool
  trend_summary : TrendDirection
  bb_upper_half : Bool
  risk_level : RiskLevel
  suggested_stop_loss : Option ℚ
  suggested_take_profit : Option ℚ
  deriving DecidableEq

/-! ## The decision engine (`ForexAI.makeDecision`)

The source accumulates `bullishSignals`, `bearishSignals`, `signalStrength`
and `reasons` through a sequence of independent `if` blocks; the embedding
gives each block as a `Vote` (its additive contribution) and sums them in
source order.  `arr[arr.length - 1]` on an empty array is `undefined`, and
every comparison against `undefined` or `NaN` is `false`, so a vote fires
only when the values it compares are present and finite — except for the
trend block, where a `+Infinity` strength (`none`) satisfies
`trend.strength > 1` (noted at `trendVote`). -/

structure Vote where
  bull : ℚ
  bear : ℚ
  reasons : List Reason
  deriving DecidableEq

/-- `rsi < 30 → bullish += 2`; `rsi > 70 → bearish += 2`. -/
def rsiVote : Option ℚ → Vote
  | some r =>
      if r < 30 then ⟨2, 0, [.rsiOversold]⟩
      else if r > 70 then ⟨0, 2, [.rsiOverbought]⟩
      else ⟨0, 0, []⟩
  | none => ⟨0, 0, []⟩

/-- `macdLine > signalLine && histogram > 0 → bullish += 1.5`; the mirrored
comparison adds `1.5` to bearish.  All three last values must be present
for either branch to fire. -/
def macdVote : Option ℚ → Option ℚ → Option ℚ → Vote
  | some m, some s, some h =>
      if m > s ∧ h > 0 then ⟨3/2, 0, [.macdBullishCrossover]⟩
      else if m < s ∧ h < 0 then ⟨0, 3/2, [.macdBearishCrossover]⟩
      else ⟨0, 0, []⟩
  | _, _, _ => ⟨0, 0, []⟩

/-- `currentPrice <= lowerBand → bullish += 1`;
`currentPrice >= upperBand → bearish += 1`. -/
def bollingerVote (currentPrice : ℚ) (lowerBand upperBand : Option ℚ) : Vote :=
  if (match lowerBand with | some lb => decide (currentPrice ≤ lb) | none => false) then
    ⟨1, 0, [.priceAtLowerBand]⟩
  else if (match upperBand with | some ub => decide (currentPrice ≥ ub) | none => false) then
    ⟨0, 1, [.priceAtUpperBand]⟩
  else ⟨0, 0, []⟩

/-- `trend.strength > 1` in the source; an infinite strength (`none`)
compares greater than 1 in JavaScript. -/
def strengthGTOne : Option ℚ → Bool
  | some s => decide (s > 1)
  | none => true

/-- `uptrend && strength > 1 → bullish += 1`; mirrored for downtrend. -/
def trendVote (t : Trend) : Vote :=
  if t.direction = .uptrend ∧ strengthGTOne t.strength then
    ⟨1, 0, [.strongUptrend t.strength]⟩
  else if t.direction = .downtrend ∧ strengthGTOne t.strength then
    ⟨0, 1, [.strongDowntrend t.strength]⟩
  else ⟨0, 0, []⟩

/-- Two independent `if` blocks: `hammer || morning_star → bullish += 1`
and `shootingStar || evening_star → bearish += 1`. -/
def patternVote (p : Patterns) : Vote :=
  ⟨if p.hammer || p.morning_star then 1 else 0,
   if p.shootingStar || p.evening_star then 1 else 0,
   (if p.hammer || p.morning_star then [Reason.bullishPattern] else []) ++
     (if p.shootingStar || p.evening_star then [Reason.bearishPattern] else [])⟩

/-- `Math.abs(currentPrice - level) / currentPrice < 0.001`; when
`currentPrice = 0` the JavaScript division is non-finite and the comparison
is `false`. -/
def nearLevel (currentPrice level : ℚ) : Bool :=
  if currentPrice = 0 then false
  else decide (|currentPrice - level| / currentPrice < 1/1000)

/-- Two independent `if` blocks: near a support level `→ bullish += 0.5`,
near a resistance level `→ bearish += 0.5`. -/
def srVote (currentPrice : ℚ) (sr : SupportResistance) : Vote :=
  let nearSupport := sr.support.any fun level => nearLevel currentPrice level
  let nearResistance := sr.resistance.any fun level => nearLevel currentPrice level
  ⟨if nearSupport then 1/2 else 0,
   if nearResistance then 1/2 else 0,
   (if nearSupport then [Reason.nearSupportLevel] else []) ++
     (if nearResistance then [Reason.nearResistanceLevel] else [])⟩

def Vote.add (v w : Vote) : Vote := ⟨v.bull + w.bull, v.bear + w.bear, v.reasons ++ w.reasons⟩

/-- The summed accumulators of `makeDecision`, in source order
(RSI, MACD, Bollinger, trend, patterns, support/resistance). -/
def combinedVote (a : AnalysisInput) : Vote :=
  ((((rsiVote (a.indicators.rsi.getLast?.bind id)).add
      (macdVote a.indicators.macd.macd.getLast? a.indicators.macd.signal.getLast?
        a.indicators.macd.histogram.getLast?)).add
    (bollingerVote a.currentPrice a.indicators.bollinger.lower.getLast?
      a.indicators.bollinger.upper.getLast?)).add
   ((trendVote a.trend).add (patternVote a.patterns))).add
    (srVote a.currentPrice a.supportResistance)

/-- `volumeAnalysis.is_high_volume → signalStrength += 0.2`. -/
def signalStrengthOf (a : AnalysisInput) : ℚ :=
  if a.volumeAnalysis.is_high_volume then 1/5 else 0

/-- The action selected before the confidence threshold is applied. -/
def rawAction (a : AnalysisInput) : TradeAction :=
  let v := combinedVote a
  if v.bull + v.bear > 0 then
    (if v.bull > v.bear then .buy else if v.bear > v.bull then .sell else .hold)
  else .hold

/-- `confidence = (winning / (bullish + bearish)) * 0.8 + signalStrength`
(zero when there are no signals or on a tie). -/
def rawConfidence (a : AnalysisInput) : ℚ :=
  let v := combinedVote a
  if v.bull + v.bear > 0 then
    (if v.bull > v.bear then v.bull / (v.bull + v.bear) * (4/5) + signalStrengthOf a
     else if v.bear > v.bull then v.bear / (v.bull + v.bear) * (4/5) + signalStrengthOf a
     else 0)
  else 0

/-- `Math.min` on two finite numbers. -/
def jsMin (a b : ℚ) : ℚ := if a ≤ b then a else b

/-- `confidence = Math.min(confidence, 0.95)` — the value compared against
the threshold and fed to `toFixed(3)`/`calculateRiskLevel`. -/
def computedConfidence (a : AnalysisInput) : ℚ :=
  jsMin (rawConfidence a) (19/20)

/-- `ForexAI.calculateRiskLevel(confidence, indicators)`. -/
def calculateRiskLevel (confidence : ℚ) (ind : IndicatorSet) : RiskLevel :=
  let atrLast := ind.atr.getLast?
  let rsiLast := ind.rsi.getLast?.bind id
  let riskScore : ℕ :=
    (if confidence < 3/5 then 3 else if confidence < 3/4 then 2 else 1) +
    (match atrLast with
     | some a => if a > 1/500 then 2 else if a > 1/1000 then 1 else 0
     | none => 0) +
    (match rsiLast with
     | some r => if r < 20 ∨ r > 80 then 1 else 0
     | none => 0)
  if riskScore ≤ 2 then .low else if riskScore ≤ 4 then .medium else .high

/-- `ForexAI.calculateStopLoss`: `entry ∓ 2·ATR` for buy/sell, `null` for
hold.  An empty ATR series would make the source produce `NaN` for
buy/sell; that is unreachable from the pipeline (≥ 50 candles) and is
modelled as `none` as well. -/
def calculateStopLoss (currentPrice : ℚ) (ind : IndicatorSet) :
    TradeAction → Option ℚ
  | .buy => ind.atr.getLast?.map fun a => currentPrice - a * 2
  | .sell => ind.atr.getLast?.map fun a => currentPrice + a * 2
  | .hold => none

/-- `ForexAI.calculateTakeProfit`: `entry ± 3·ATR` for buy/sell. -/
def calculateTakeProfit (currentPrice : ℚ) (ind : IndicatorSet) :
    TradeAction → Option ℚ
  | .buy => ind.atr.getLast?.map fun a => currentPrice + a * 3
  | .sell => ind.atr.getLast?.map fun a => currentPrice - a * 3
  | .hold => none

/-- `ForexAI.makeDecision(analysis)` for a configured confidence threshold
`thr` (`this.confidence_threshold`, default 0.75). -/
def makeDecision (thr : ℚ) (a : AnalysisInput) : Decision :=
  let v := combinedVote a
  let confidence := computedConfidence a
  let action := if confidence < thr then TradeAction.hold else rawAction a
  let volumeReasons := if a.volumeAnalysis.is_high_volume then [Reason.highVolumeConfirmation] else []
  { action := action
    confidence := round3 confidence
    bullish_signals := v.bull
    bearish_signals := v.bear
    reasons := v.reasons ++ volumeReasons
    rsi_summary := a.indicators.rsi.getLast?.bind id
    macd_signal_bullish :=
      match a.indicators.macd.macd.getLast?, a.indicators.macd.signal.getLast? with
      | some m, some s => decide (m > s)
      | _, _ => false
    trend_summary := a.trend.direction
    bb_upper_half :=
      match a.indicators.bollinger.middle.getLast? with
      | some mid => decide (a.currentPrice > mid)
      | none => false
    risk_level := calculateRiskLevel confidence a.indicators
    suggested_stop_loss := calculateStopLoss a.currentPrice a.indicators action
    suggested_take_profit := calculateTakeProfit a.currentPrice a.indicators action }

/-! ## The analysis pipeline (`ForexAI.analyzeMarket` and helpers) -/

/-- JavaScript `x > y` where either side may be `undefined`/`NaN` (`none`):
the comparison is `false` unless both are present and finite. -/
def optGT : Option ℚ → Option ℚ → Bool
  | some x, some y => decide (x > y)
  | _, _ => false

/-- JavaScript `x < y` on possibly-absent values. -/
def optLT : Option ℚ → Option ℚ → Bool
  | some x, some y => decide (x < y)
  | _, _ => false

/-- Placeholder used for `getD` lookups that the surrounding length guards
make unreachable. -/
def dummyCandle : Candle := ⟨0, 0, 0, 0, 0, 0⟩

/-- `ForexAI.detectPatterns(data)`.  `morning_star`/`evening_star` are
initialised `false` and never assigned in the source.  For the doji ratio
the source divides by `candleRange` unguarded: a zero range gives a
non-finite ratio whose `< 0.1` comparison is `false`. -/
def detectPatterns (data : List Candle) : Patterns :=
  if data.length < 3 then ⟨false, false, false, false, false, false⟩
  else
    let recent := data.drop (data.length - 3)
    let current := recent.getD 2 dummyCandle
    let previous := recent.getD 1 dummyCandle
    let bodySize := |current.close - current.opn|
    let candleRange := current.high - current.low
    let doji := if candleRange = 0 then false else decide (bodySize / candleRange < 1/10)
    let lowerShadow :=
      if current.opn > current.close then current.close - current.low
      else current.opn - current.low
    let upperShadow := current.high - max current.opn current.close
    let hammer := decide (lowerShadow > bodySize * 2 ∧ upperShadow < bodySize * (1/2))
    let shootingStar := decide (upperShadow > bodySize * 2 ∧ lowerShadow < bodySize * (1/2))
    let prevBody := |previous.close - previous.opn|
    let currBody := |current.close - current.opn|
    let engulfing := decide (currBody > prevBody * (3/2) ∧
      ((previous.close < previous.opn ∧ current.close > current.opn) ∨
       (previous.close > previous.opn ∧ current.close < current.opn)))
    ⟨doji, hammer, shootingStar, engulfing, false, false⟩

/-- `ForexAI.findLocalMaxima(data, window)`: indices `window ≤ i <
data.length - window` whose symmetric window lies entirely `≤ data[i]`. -/
def findLocalMaxima (data : List ℚ) (window : ℕ) : List ℚ :=
  (List.range' window (data.length - window - window)).filterMap fun i =>
    let v := data.getD i 0
    if ((data.drop (i - window)).take (window + window + 1)).all
        (fun value => decide (value ≤ v)) then some v
    else none

/-- `ForexAI.findLocalMinima(data, window)`. -/
def findLocalMinima (data : List ℚ) (window : ℕ) : List ℚ :=
  (List.range' window (data.length - window - window)).filterMap fun i =>
    let v := data.getD i 0
    if ((data.drop (i - window)).take (window + window + 1)).all
        (fun value => decide (value ≥ v)) then some v
    else none

/-- `ForexAI.findSupportResistance(data)`: the last 3 local maxima of the
highs and the last 3 local minima of the lows (window 5); `current_price`
is the last close (the pipeline calls this only on nonempty data). -/
def findSupportResistance (data : List Candle) : SupportResistance :=
  let prices := data.map Candle.close
  let highs := data.map Candle.high
  let lows := data.map Candle.low
  ⟨lastN (findLocalMaxima highs 5) 3, lastN (findLocalMinima lows 5) 3,
   prices.getLast?.getD 0⟩

/-- `ForexAI.analyzeTrend(data, indicators)`.  The source compares the last
close against the last sma20/sma50 values (comparisons with `undefined`
are `false`, giving `sideways`), computes the signed percentage deviation
from the sma50 on the trend branches, and returns `Math.abs` of it; a zero
sma50 divisor gives `+Infinity` (`none`). -/
def analyzeTrend (data : List Candle) (ind : IndicatorSet) : Trend :=
  let cpO := (data.map Candle.close).getLast?
  let s20O := ind.sma20.getLast?
  let s50O := ind.sma50.getLast?
  let sma20_above := optGT cpO s20O
  let sma50_above := optGT cpO s50O
  if optGT cpO s20O && optGT s20O s50O then
    let cp := cpO.getD 0
    let s50 := s50O.getD 0
    ⟨.uptrend, if s50 = 0 then none else some |(cp - s50) / s50 * 100|,
     sma20_above, sma50_above⟩
  else if optLT cpO s20O && optLT s20O s50O then
    let cp := cpO.getD 0
    let s50 := s50O.getD 0
    ⟨.downtrend, if s50 = 0 then none else some |(s50 - cp) / s50 * 100|,
     sma20_above, sma50_above⟩
  else ⟨.sideways, some 0, sma20_above, sma50_above⟩

/-- `ForexAI.analyzeVolume(data)` (`volume || 0` is the identity on the
always-numeric volume column; the pipeline calls this only on nonempty
data, so the `0`-defaults are unreachable). -/
def analyzeVolume (data : List Candle) : VolumeAnalysis :=
  let volumes := data.map fun d => (d.volume : ℚ)
  let avgVolume := volumes.sum / (volumes.length : ℚ)
  let currentVolume := volumes.getLast?.getD 0
  ⟨avgVolume, currentVolume, currentVolume / avgVolume,
   decide (currentVolume > avgVolume * (3/2))⟩

/-- `ForexAI.calculateIndicators(data)`. -/
def calculateIndicators (sqrtFn : ℚ → ℚ) (data : List Candle) : IndicatorSet :=
  let prices := data.map Candle.close
  let highs := data.map Candle.high
  let lows := data.map Candle.low
  { sma20 := SMA prices 20
    sma50 := SMA prices 50
    ema12 := EMA prices 12
    ema26 := EMA prices 26
    macd := MACD prices 12 26 9
    rsi := RSI prices 14
    bollinger := BollingerBands sqrtFn prices 20 2
    stochastic := Stochastic highs lows prices 14 3
    atr := ATR highs lows prices 14
    williamsR := WilliamsR highs lows prices 14 }

/-- The EUR/USD base price `1.0850` of `generateSimulatedData`. -/
def basePrice : ℚ := 10850 / 10000

/-- Body of the `generateSimulatedData` loop; `fuel` counts the remaining
iterations (the loop index is `i = limit - fuel`), and the four
`Math.random()` calls of iteration `i` are `rng (4*i) … rng (4*i+3)`.
The running `currentPrice` is the *unrounded* close. -/
def genSimAux (now : ℤ) (rng : ℕ → ℚ) (limit : ℕ) : ℕ → ℚ → List Candle
  | 0, _ => []
  | fuel + 1, currentPrice =>
      let i := limit - (fuel + 1)
      let timestamp := now - ((limit : ℤ) - (i : ℤ)) * 5 * 60 * 1000
      let variation := (rng (4 * i) - 1/2) * (2/1000)
      let o := currentPrice
      let c := o + variation
      let h := max o c + rng (4 * i + 1) * (1/1000)
      let l := min o c - rng (4 * i + 2) * (1/1000)
      { timestamp := timestamp, opn := round5 o, high := round5 h,
        low := round5 l, close := round5 c,
        volume := ⌊rng (4 * i + 3) * 1000000⌋ } ::
        genSimAux now rng limit fuel c

/-- `ForexAI.generateSimulatedData(symbol, limit)`: `limit` candles walked
from the fixed base price (the `symbol` argument is unused by the source
beyond logging). -/
def generateSimulatedData (now : ℤ) (rng : ℕ → ℚ) (limit : ℕ) : List Candle :=
  genSimAux now rng limit limit basePrice

/-- `ForexAI.getMarketData(symbol, timeframe, limit)`: `dbResult = none`
models the query throwing, `some []` a query with zero rows — both fall
back to simulated data; otherwise the rows (already numeric here, so the
source's `parseFloat`/`parseInt` row map is the identity) are reversed
into chronological order. -/
def getMarketData (dbResult : Option (List Candle)) (limit : ℕ) (now : ℤ)
    (rng : ℕ → ℚ) : List Candle :=
  match dbResult with
  | none => generateSimulatedData now rng limit
  | some [] => generateSimulatedData now rng limit
  | some rows => (rows.map fun item => item).reverse

/-- Result of `ForexAI.analyzeMarket`: either the decision object, or the
catch-branch object `{action:'hold', confidence:0, reason, error}`. -/
inductive AnalysisResult
  | success (decision : Decision)
  | failure (action : TradeAction) (confidence : ℚ) (reason : String)
      (errorMessage : String)
  deriving DecidableEq

/-- `ForexAI.analyzeMarket(symbol, timeframe)` with the database read made
explicit.  `thr` is `this.confidence_threshold` (default 0.75).  Fewer
than 50 candles throw `'Dados insuficientes para análise'`, which the
catch branch turns into a hold/0 result carrying the message; the
`logAnalysis` step only writes a log (errors swallowed) and does not
affect the returned value. -/
def analyzeMarket (thr : ℚ) (sqrtFn : ℚ → ℚ) (now : ℤ) (rng : ℕ → ℚ)
    (dbResult : Option (List Candle)) : AnalysisResult :=
  let marketData := getMarketData dbResult 200 now rng
  if marketData.length < 50 then
    .failure .hold 0 "Erro na análise" "Dados insuficientes para análise"
  else
    let indicators := calculateIndicators sqrtFn marketData
    let patterns := detectPatterns marketData
    let supportResistance := findSupportResistance marketData
    let trend := analyzeTrend marketData indicators
    let volumeAnalysis := analyzeVolume marketData
    let currentPrice := (marketData.map Candle.close).getLast?.getD 0
    .success (makeDecision thr
      ⟨indicators, patterns, supportResistance, trend, volumeAnalysis, currentPrice⟩)

/-! ## Candle persistence (`DerivIntegration.saveCandleToDB` and the
`market_data` table)

The `market_data` table carries `UNIQUE KEY unique_candle (symbol,
timeframe, timestamp)` (database migration), and `saveCandleToDB` writes
with `INSERT … ON DUPLICATE KEY UPDATE open_price, high_price, low_price,
close_price` — the volume column is *not* in the update list.
`upsertCandle` is the MySQL semantics of that statement over a table whose
rows are unique on the key. -/

structure CandleRow where
  symbol : String
  timeframe : String
  timestamp : ℤ
  opn : ℚ
  high : ℚ
  low : ℚ
  close : ℚ
  volume : ℤ
  deriving DecidableEq

/-- The natural key of `market_data` (`UNIQUE KEY unique_candle`). -/
def candleKey (r : CandleRow) : String × String × ℤ :=
  (r.symbol, r.timeframe, r.timestamp)

/-- The `ON DUPLICATE KEY UPDATE` column list: OHLC only, volume kept. -/
def overwriteOHLC (c r : CandleRow) : CandleRow :=
  { r with opn := c.opn, high := c.high, low := c.low, close := c.close }

/-- The per-row effect of a duplicate-key update: rows matching the
candle's key get its OHLC values, all other rows are untouched. -/
def updRow (c r : CandleRow) : CandleRow :=
  if candleKey r = candleKey c then overwriteOHLC c r else r

/-- `INSERT … ON DUPLICATE KEY UPDATE`: if a row with the candle's key
exists it gets the new OHLC values (volume untouched), otherwise the full
row is inserted. -/
def upsertCandle (table : List CandleRow) (c : CandleRow) : List CandleRow :=
  if table.any (fun r => decide (candleKey r = candleKey c)) then
    table.map (updRow c)
  else table ++ [c]

/-- `DerivIntegration.determineTimeframe` returns `'5m'` unconditionally. -/
def determineTimeframe : String := "5m"

/-- `DerivIntegration.saveCandleToDB(candleData)`: upsert with the fixed
timeframe and volume 0 (`// Volume não disponível na Deriv para FOREX`). -/
def saveCandleToDB (table : List CandleRow) (symbol : String) (timestamp : ℤ)
    (o h l c : ℚ) : List CandleRow :=
  upsertCandle table ⟨symbol, determineTimeframe, timestamp, o, h, l, c, 0⟩

/-! ## Auto trading (`DerivIntegration.executeAutoTrade`) -/

/-- One row of the `getActiveUsers` query joined with the user's observed
daily trade count (`getUserDailyTrades`). -/
structure UserRow where
  id : ℕ
  trading_active : Bool
  ai_active : Bool
  max_daily_trades : ℤ
  dailyTrades : ℤ
  deriving DecidableEq

/-- A user the `executeAutoTrade` loop forwards to `executeTrade`: both
flags on, and not `dailyTrades >= max_daily_trades && max_daily_trades
!== -1`. -/
def eligibleUser (u : UserRow) : Bool :=
  u.trading_active && u.ai_active &&
    !(decide (u.dailyTrades ≥ u.max_daily_trades ∧ u.max_daily_trades ≠ -1))

/-- The `executeAutoTrade` user loop, yielding the ids of the users for
which `executeTrade` is invoked (each Trade insert happens inside
`executeTrade`, so a skipped user gets zero inserts); the two `continue`
guards are the source's flag check and daily-cap check. -/
def executeAutoTradeCalls : List UserRow → List ℕ
  | [] => []
  | u :: rest =>
      if !u.trading_active || !u.ai_active then executeAutoTradeCalls rest
      else if u.dailyTrades ≥ u.max_daily_trades ∧ u.max_daily_trades ≠ -1 then
        executeAutoTradeCalls rest
      else u.id :: executeAutoTradeCalls rest

/-! ## WebSocket reconnection (`class DerivAPI`,
`derivIntegration-simples.js`)

`handleReconnect` runs on every `close` event: with attempts exhausted it
only calls `logger.error` and returns — it emits no event and schedules
nothing; otherwise it increments the counter and schedules `connect` after
`reconnectDelay` ms.  The `close` handler itself emits `'disconnected'`
before calling `handleReconnect`, and a successful `open` resets the
counter. -/

inductive DerivEvent
  | connected
  | disconnected
  | errorEvent
  deriving DecidableEq

structure ConnState where
  reconnectAttempts : ℕ
  deriving DecidableEq

def maxReconnectAttempts : ℕ := 5

/-- `this.reconnectDelay = 5000` (milliseconds). -/
def reconnectDelay : ℕ := 5000

/-- `DerivAPI.handleReconnect`: the new state and the delay of the
scheduled `connect` call, if one was scheduled. -/
def handleReconnect (s : ConnState) : ConnState × Option ℕ :=
  if s.reconnectAttempts ≥ maxReconnectAttempts then (s, none)
  else (⟨s.reconnectAttempts + 1⟩, some reconnectDelay)

/-- The `ws.on('close')` handler: emit `'disconnected'`, then
`handleReconnect`.  Returns (new state, events emitted upward, scheduled
reconnect delay). -/
def onClose (s : ConnState) : ConnState × List DerivEvent × Option ℕ :=
  let hr := handleReconnect s
  (hr.1, [DerivEvent.disconnected], hr.2)

/-- The `ws.on('open')` handler: reset the attempt counter, emit
`'connected'`. -/
def onOpen (_ : ConnState) : ConnState × List DerivEvent :=
  (⟨0⟩, [DerivEvent.connected])

/-- A run of `n` consecutive `close` events (every reconnection attempt
failing, so no `open` ever resets the counter): the scheduled delay of
each step, in order. -/
def runCloses : ConnState → ℕ → List (Option ℕ)
  | _, 0 => []
  | s, n + 1 => (onClose s).2.2 :: runCloses (onClose s).1 n

/-! ## Candle-event sampling (`DerivIntegration.handleCandleData` /
`shouldAnalyzeCandle`) -/

/-- `this.stats.candlesReceived` — one global counter, shared by all
symbols. -/
structure IngestState where
  candlesReceived : ℕ
  deriving DecidableEq

/-- `DerivIntegration.shouldAnalyzeCandle`: `candlesReceived % 5 === 0`. -/
def shouldAnalyzeCandle (s : IngestState) : Bool :=
  s.candlesReceived % 5 == 0

/-- `DerivIntegration.handleCandleData(candleData)`: increment the global
counter, then trigger `analyzeWithAI(candleData.symbol)` when
`shouldAnalyzeCandle` holds.  Returns the new state and the symbol
analysed, if any. -/
def handleCandleData (s : IngestState) (symbol : String) :
    IngestState × Option String :=
  let s2 : IngestState := ⟨s.candlesReceived + 1⟩
  (s2, if shouldAnalyzeCandle s2 then some symbol else none)

/-- A run of candle events (their symbols, in arrival order): per event,
the symbol analysed at that event, if any. -/
def runCandles : IngestState → List String → List (Option String)
  | _, [] => []
  | s, sym :: rest =>
      (handleCandleData s sym).2 :: runCandles (handleCandleData s sym).1 rest

/-! ## Helper lemmas: nonnegativity of the accumulated signal weights -/

lemma rsiVote_nonneg (r : Option ℚ) : 0 ≤ (rsiVote r).bull ∧ 0 ≤ (rsiVote r).bear := by
  cases r <;> simp only [rsiVote] <;>
    first
    | exact ⟨le_refl 0, le_refl 0⟩
    | (split_ifs <;> exact ⟨by norm_num, by norm_num⟩)

lemma macdVote_nonneg (m s h : Option ℚ) :
    0 ≤ (macdVote m s h).bull ∧ 0 ≤ (macdVote m s h).bear := by
  cases m <;> cases s <;> cases h <;> simp only [macdVote] <;> try exact ⟨le_refl 0, le_refl 0⟩
  split_ifs <;> exact ⟨by norm_num, by norm_num⟩

lemma bollingerVote_nonneg (cp : ℚ) (lb ub : Option ℚ) :
    0 ≤ (bollingerVote cp lb ub).bull ∧ 0 ≤ (bollingerVote cp lb ub).bear := by
  unfold bollingerVote
  split_ifs <;> exact ⟨by norm_num, by norm_num⟩

lemma trendVote_nonneg (t : Trend) : 0 ≤ (trendVote t).bull ∧ 0 ≤ (trendVote t).bear := by
  unfold trendVote
  split_ifs <;> exact ⟨by norm_num, by norm_num⟩

lemma patternVote_nonneg (p : Patterns) :
    0 ≤ (patternVote p).bull ∧ 0 ≤ (patternVote p).bear := by
  unfold patternVote
  constructor <;> dsimp only <;> split_ifs <;> norm_num

lemma srVote_nonneg (cp : ℚ) (sr : SupportResistance) :
    0 ≤ (srVote cp sr).bull ∧ 0 ≤ (srVote cp sr).bear := by
  unfold srVote
  constructor <;> dsimp only <;> split_ifs <;> norm_num

lemma combinedVote_nonneg (a : AnalysisInput) :
    0 ≤ (combinedVote a).bull ∧ 0 ≤ (combinedVote a).bear := by
  unfold combinedVote
  have h1 := rsiVote_nonneg (a.indicators.rsi.getLast?.bind id)
  have h2 := macdVote_nonneg a.indicators.macd.macd.getLast?
    a.indicators.macd.signal.getLast? a.indicators.macd.histogram.getLast?
  have h3 := bollingerVote_nonneg a.currentPrice a.indicators.bollinger.lower.getLast?
    a.indicators.bollinger.upper.getLast?
  have h4 := trendVote_nonneg a.trend
  have h5 := patternVote_nonneg a.patterns
  have h6 := srVote_nonneg a.currentPrice a.supportResistance
  unfold Vote.add
  constructor <;> dsimp only
  · have := h1.1; have := h2.1; have := h3.1; have := h4.1; have := h5.1; have := h6.1
    linarith
  · have := h1.2; have := h2.2; have := h3.2; have := h4.2; have := h5.2; have := h6.2
    linarith

lemma signalStrengthOf_nonneg (a : AnalysisInput) : 0 ≤ signalStrengthOf a := by
  unfold signalStrengthOf
  split_ifs <;> norm_num

lemma rawConfidence_nonneg (a : AnalysisInput) : 0 ≤ rawConfidence a := by
  simp only [rawConfidence]
  have hb := combinedVote_nonneg a
  have hs := signalStrengthOf_nonneg a
  split_ifs with h1 h2 h3
  · have hsum : (0:ℚ) < (combinedVote a).bull + (combinedVote a).bear := h1
    have hr : 0 ≤ (combinedVote a).bull / ((combinedVote a).bull + (combinedVote a).bear) :=
      div_nonneg hb.1 (le_of_lt hsum)
    have : 0 ≤ (combinedVote a).bull / ((combinedVote a).bull + (combinedVote a).bear) * (4/5) := by
      positivity
    linarith
  · have hsum : (0:ℚ) < (combinedVote a).bull + (combinedVote a).bear := h1
    have hr : 0 ≤ (combinedVote a).bear / ((combinedVote a).bull + (combinedVote a).bear) :=
      div_nonneg hb.2 (le_of_lt hsum)
    have : 0 ≤ (combinedVote a).bear / ((combinedVote a).bull + (combinedVote a).bear) * (4/5) := by
      positivity
    linarith
  · exact le_refl 0
  · exact le_refl 0

lemma computedConfidence_bounds (a : AnalysisInput) :
    0 ≤ computedConfidence a ∧ computedConfidence a ≤ 19/20 := by
  unfold computedConfidence jsMin
  have h0 := rawConfidence_nonneg a
  split_ifs with h
  · exact ⟨h0, h⟩
  · exact ⟨by norm_num, le_refl _⟩

lemma round3_bounds {q : ℚ} (h0 : 0 ≤ q) (h1 : q ≤ 19/20) :
    0 ≤ round3 q ∧ round3 q ≤ 19/20 := by
  unfold round3
  have hlow : (0:ℤ) ≤ round (q * 1000) := by
    rw [round_eq]
    exact Int.floor_nonneg.mpr (by linarith)
  have hhigh : round (q * 1000) ≤ 950 := by
    rw [round_eq]
    have h2 : q * 1000 + 1/2 ≤ 1901/2 := by linarith
    have h3 : (⌊q * 1000 + 1/2⌋ : ℤ) ≤ ⌊(1901/2 : ℚ)⌋ := Int.floor_le_floor h2
    have h4 : (⌊(1901/2 : ℚ)⌋ : ℤ) = 950 := by
      apply Int.floor_eq_iff.mpr
      constructor <;> norm_num
    omega
  constructor
  · apply div_nonneg _ (by norm_num)
    exact_mod_cast hlow
  · rw [div_le_iff₀ (by norm_num : (0:ℚ) < 1000)]
    calc ((round (q * 1000) : ℤ) : ℚ) ≤ (950 : ℚ) := by exact_mod_cast hhigh
      _ = 19/20 * 1000 := by norm_num

/-- C2: for every input to `makeDecision` (any indicator set, patterns,
support/resistance levels, trend, volume analysis and current price) and
any configured threshold, the `confidence` field of the returned Decision
lies in `[0, 0.95]`, no matter how large the accumulated bullish/bearish
signal weights and the signal-strength bonus are. -/
theorem makeDecision_confidence_clamped (thr : ℚ) (a : AnalysisInput) :
    0 ≤ (makeDecision thr a).confidence ∧ (makeDecision thr a).confidence ≤ 19/20 := by
  have hb := computedConfidence_bounds a
  have e : (makeDecision thr a).confidence = round3 (computedConfidence a) := rfl
  rw [e]
  exact round3_bounds hb.1 hb.2

/-- C3: whenever the computed (clamped) confidence is strictly below the
configured threshold, the returned action is `hold` — regardless of how the
bullish/bearish totals would otherwise have voted — while the returned
`confidence` field still carries the computed sub-threshold value (passed
through the source's `toFixed(3)` formatting, i.e. `round3`). -/
theorem makeDecision_threshold_forces_hold (thr : ℚ) (a : AnalysisInput)
    (h : computedConfidence a < thr) :
    (makeDecision thr a).action = TradeAction.hold ∧
      (makeDecision thr a).confidence = round3 (computedConfidence a) := by
  constructor
  · have e : (makeDecision thr a).action =
        if computedConfidence a < thr then TradeAction.hold else rawAction a := rfl
    rw [e, if_pos h]
  · rfl

/-- Concrete sub-threshold input for the C3 witness: RSI oversold
(bullish 2) against a bearish MACD crossover (bearish 1.5), so the raw
vote is a buy at confidence `(2/3.5)·0.8 = 16/35 ≈ 0.457 < 0.75`. -/
def subThresholdInput : AnalysisInput :=
  { indicators :=
      { sma20 := [], sma50 := [], ema12 := [], ema26 := []
        macd := ⟨[-1], [0], [-1]⟩
        rsi := [some 25]
        bollinger := ⟨[], [], []⟩
        stochastic := ⟨[], []⟩
        atr := [], williamsR := [] }
    patterns := ⟨false, false, false, false, false, false⟩
    supportResistance := ⟨[], [], 1⟩
    trend := ⟨.sideways, some 0, false, false⟩
    volumeAnalysis := ⟨0, 0, 0, false⟩
    currentPrice := 1 }

/-- Witness for C3 at the default threshold 0.75. -/
theorem makeDecision_threshold_forces_hold_witness :
    computedConfidence subThresholdInput < 3/4 ∧
      ((makeDecision (3/4) subThresholdInput).action = TradeAction.hold ∧
        (makeDecision (3/4) subThresholdInput).confidence =
          round3 (computedConfidence subThresholdInput)) :=
  ⟨by norm_num [computedConfidence, rawConfidence, combinedVote, rsiVote, macdVote,
      bollingerVote, trendVote, patternVote, srVote, signalStrengthOf, Vote.add,
      jsMin, subThresholdInput, strengthGTOne],
   makeDecision_threshold_forces_hold (3/4) subThresholdInput
     (by norm_num [computedConfidence, rawConfidence, combinedVote, rsiVote, macdVote,
        bollingerVote, trendVote, patternVote, srVote, signalStrengthOf, Vote.add,
        jsMin, subThresholdInput, strengthGTOne])⟩

/-! ## C1 / C4: the insufficient-data guard and the simulated-data fallback -/

lemma genSimAux_length (now : ℤ) (rng : ℕ → ℚ) (limit : ℕ) :
    ∀ (fuel : ℕ) (p : ℚ), (genSimAux now rng limit fuel p).length = fuel := by
  intro fuel
  induction fuel with
  | zero => intro p; rfl
  | succ n ih => intro p; simp only [genSimAux, List.length_cons, ih]

lemma generateSimulatedData_length (now : ℤ) (rng : ℕ → ℚ) (limit : ℕ) :
    (generateSimulatedData now rng limit).length = limit :=
  genSimAux_length now rng limit limit basePrice

/-- C1: when the market-data read yields some rows but fewer than 50
candles, `analyzeMarket` refuses to analyze: the `'Dados insuficientes
para análise'` error is thrown and the catch branch returns the hold/0
object carrying that error message, instead of computing indicators. -/
theorem analyzeMarket_insufficient_data (thr : ℚ) (sqrtFn : ℚ → ℚ) (now : ℤ)
    (rng : ℕ → ℚ) (rows : List Candle) (hne : rows ≠ []) (hlen : rows.length < 50) :
    analyzeMarket thr sqrtFn now rng (some rows) =
      AnalysisResult.failure TradeAction.hold 0 "Erro na análise"
        "Dados insuficientes para análise" := by
  cases rows with
  | nil => exact absurd rfl hne
  | cons r rs =>
    have hmd : getMarketData (some (r :: rs)) 200 now rng =
        ((r :: rs).map fun item => item).reverse := rfl
    have hlen2 : (getMarketData (some (r :: rs)) 200 now rng).length < 50 := by
      rw [hmd, List.length_reverse, List.length_map]
      exact hlen
    simp only [analyzeMarket]
    rw [if_pos hlen2]

/-- A store with a single candle row, for the C1 witness. -/
def singleCandleRows : List Candle := [⟨0, 1, 2, 0, 1, 5⟩]

/-- Witness for C1: one row in the store (so no simulated fallback), which
is fewer than 50. -/
theorem analyzeMarket_insufficient_data_witness :
    (singleCandleRows ≠ [] ∧ singleCandleRows.length < 50) ∧
      analyzeMarket (3/4) (fun _ => 0) 0 (fun _ => 0) (some singleCandleRows) =
        AnalysisResult.failure TradeAction.hold 0 "Erro na análise"
          "Dados insuficientes para análise" :=
  ⟨⟨by decide, by decide⟩,
   analyzeMarket_insufficient_data (3/4) (fun _ => 0) 0 (fun _ => 0)
     singleCandleRows (by decide) (by decide)⟩

/-- C4: when the market-data query returns zero rows (`some []`) or throws
(`none`), `getMarketData` silently falls back to `generateSimulatedData`,
returning exactly `limit` freshly generated pseudo-random candles; as a
consequence `analyzeMarket` (which asks for 200 candles) never takes the
insufficient-data branch on an empty store and produces a full decision
over the fabricated data. -/
theorem getMarketData_empty_fabricates (thr : ℚ) (sqrtFn : ℚ → ℚ) (now : ℤ)
    (rng : ℕ → ℚ) (limit : ℕ) (dbResult : Option (List Candle))
    (h : dbResult = none ∨ dbResult = some []) :
    getMarketData dbResult limit now rng = generateSimulatedData now rng limit ∧
      (getMarketData dbResult limit now rng).length = limit ∧
      ∃ d, analyzeMarket thr sqrtFn now rng dbResult = AnalysisResult.success d := by
  have hmd : getMarketData dbResult limit now rng = generateSimulatedData now rng limit := by
    rcases h with rfl | rfl <;> rfl
  have hmd200 : getMarketData dbResult 200 now rng = generateSimulatedData now rng 200 := by
    rcases h with rfl | rfl <;> rfl
  refine ⟨hmd, by rw [hmd, generateSimulatedData_length], ?_⟩
  have hnotlt : ¬ (getMarketData dbResult 200 now rng).length < 50 := by
    rw [hmd200, generateSimulatedData_length]
    norm_num
  simp only [analyzeMarket]
  rw [if_neg hnotlt]
  exact ⟨_, rfl⟩

/-- Witness for C4: the empty store. -/
theorem getMarketData_empty_fabricates_witness :
    ((some ([] : List Candle) = none ∨ some ([] : List Candle) = some []) ∧
      getMarketData (some []) 200 0 (fun _ => 0) = generateSimulatedData 0 (fun _ => 0) 200 ∧
      (getMarketData (some []) 200 0 (fun _ => 0)).length = 200 ∧
      ∃ d, analyzeMarket (3/4) (fun _ => 0) 0 (fun _ => 0) (some []) =
        AnalysisResult.success d) :=
  ⟨Or.inr rfl,
   getMarketData_empty_fabricates (3/4) (fun _ => 0) 0 (fun _ => 0) 200 (some [])
     (Or.inr rfl)⟩

/-! ## C5: range of the RSI output -/

lemma jsGains_nonneg (data : List ℚ) : ∀ x ∈ jsGains data, 0 ≤ x := by
  intro x hx
  simp only [jsGains, List.mem_map] at hx
  obtain ⟨d, -, rfl⟩ := hx
  split_ifs with h
  · linarith
  · exact le_refl 0

lemma jsLosses_nonneg (data : List ℚ) : ∀ x ∈ jsLosses data, 0 ≤ x := by
  intro x hx
  simp only [jsLosses, List.mem_map] at hx
  obtain ⟨d, -, rfl⟩ := hx
  split_ifs with h
  · linarith
  · exact le_refl 0

lemma rsiPoint_bounds {aG aL : ℚ} (hG : 0 ≤ aG) (hL : 0 ≤ aL)
    (hsum : 0 < aG + aL) : ∃ r, rsiPoint aG aL = some r ∧ 0 ≤ r ∧ r ≤ 100 := by
  unfold rsiPoint
  split_ifs with h1 h2
  · exfalso
    rw [h1, h2] at hsum
    norm_num at hsum
  · exact ⟨100, rfl, by norm_num, le_refl 100⟩
  · have hLpos : 0 < aL := lt_of_le_of_ne hL (Ne.symm h1)
    have hrs : 0 ≤ aG / aL := div_nonneg hG hL
    have hpos : (0:ℚ) < 1 + aG / aL := by linarith
    have hdivle : 100 / (1 + aG / aL) ≤ 100 := by
      rw [div_le_iff₀ hpos]
      nlinarith
    have hdivpos : 0 < 100 / (1 + aG / aL) := by positivity
    exact ⟨_, rfl, by linarith, by linarith⟩

lemma rsiLoop_bounds (period : ℕ) (hp : 2 ≤ period) :
    ∀ (rest : List (ℚ × ℚ)) (aG aL : ℚ),
      (∀ p ∈ rest, 0 ≤ p.1 ∧ 0 ≤ p.2) → 0 ≤ aG → 0 ≤ aL → 0 < aG + aL →
      ∀ x ∈ rsiLoop period aG aL rest, ∃ r, x = some r ∧ 0 ≤ r ∧ r ≤ 100 := by
  intro rest
  induction rest with
  | nil => intro aG aL _ _ _ _ x hx; simp [rsiLoop] at hx
  | cons gl rest ih =>
    intro aG aL hrest hG hL hsum x hx
    have hpQ : (1:ℚ) ≤ (period : ℚ) - 1 := by
      have : (2:ℚ) ≤ (period : ℚ) := by exact_mod_cast hp
      linarith
    have hpPos : (0:ℚ) < (period : ℚ) := by linarith
    have hgl := hrest gl (List.mem_cons_self gl rest)
    simp only [rsiLoop, List.mem_cons] at hx
    rcases hx with rfl | hx
    · exact rsiPoint_bounds hG hL hsum
    · apply ih ((aG * ((period : ℚ) - 1) + gl.1) / period)
        ((aL * ((period : ℚ) - 1) + gl.2) / period)
        (fun p hp => hrest p (List.mem_cons_of_mem gl hp))
        (div_nonneg (by nlinarith [hgl.1]) (le_of_lt hpPos))
        (div_nonneg (by nlinarith [hgl.2]) (le_of_lt hpPos))
        _ x hx
      rw [div_add_div_same]
      apply div_pos _ hpPos
      nlinarith [hgl.1, hgl.2]

/-- Formalisation of a "non-degenerate" input series for `RSI(series, 14)`:
the seed window is not flat, i.e. among the first 14 price differences at
least one is nonzero, so that the seeded `avgGain + avgLoss` is positive
(that positivity is preserved by the Wilder smoothing, which keeps the
source's unguarded `avgGain/avgLoss` away from the `0/0 = NaN` case). -/
def NonDegenerate (data : List ℚ) (period : ℕ) : Prop :=
  0 < ((jsGains data).take period).sum + ((jsLosses data).take period).sum

instance (data : List ℚ) (period : ℕ) : Decidable (NonDegenerate data period) := by
  unfold NonDegenerate
  infer_instance

/-- C5: for every non-degenerate price series of length ≥ 15 (= period+1),
every element of `RSI(series, 14)` is a finite value (not NaN) in
`[0, 100]`; moreover a window whose smoothed average loss is 0 (with a
nonzero average gain) produces exactly `RSI = 100`. -/
theorem rsi_output_in_range (data : List ℚ) (_hlen : 15 ≤ data.length)
    (hnd : NonDegenerate data 14) :
    (∀ x ∈ RSI data 14, ∃ r, x = some r ∧ 0 ≤ r ∧ r ≤ 100) ∧
      (∀ avgGain : ℚ, avgGain ≠ 0 → rsiPoint avgGain 0 = some 100) := by
  constructor
  · have hGseed : 0 ≤ (((jsGains data).take 14).sum) / (14:ℚ) := by
      apply div_nonneg _ (by norm_num)
      apply List.sum_nonneg
      intro x hx
      exact jsGains_nonneg data x (List.mem_of_mem_take hx)
    have hLseed : 0 ≤ (((jsLosses data).take 14).sum) / (14:ℚ) := by
      apply div_nonneg _ (by norm_num)
      apply List.sum_nonneg
      intro x hx
      exact jsLosses_nonneg data x (List.mem_of_mem_take hx)
    have hsum : 0 < (((jsGains data).take 14).sum) / (14:ℚ) +
        (((jsLosses data).take 14).sum) / (14:ℚ) := by
      rw [div_add_div_same]
      exact div_pos hnd (by norm_num)
    intro x hx
    simp only [RSI] at hx
    apply rsiLoop_bounds 14 (by norm_num)
      (((jsGains data).drop 14).zip ((jsLosses data).drop 14))
      _ _ _ hGseed hLseed hsum x hx
    intro p hpmem
    have hmem := List.of_mem_zip hpmem
    exact ⟨jsGains_nonneg data p.1 (List.mem_of_mem_drop hmem.1),
      jsLosses_nonneg data p.2 (List.mem_of_mem_drop hmem.2)⟩
  · intro avgGain hne
    unfold rsiPoint
    rw [if_pos rfl, if_neg hne]

/-- A 16-point alternating series for the C5 witness. -/
def alternatingSeries : List ℚ :=
  [1, 2, 1, 2, 1, 2, 1, 2, 1, 2, 1, 2, 1, 2, 1, 2]

/-- Witness for C5 on the concrete alternating series. -/
theorem rsi_output_in_range_witness :
    (15 ≤ alternatingSeries.length ∧ NonDegenerate alternatingSeries 14) ∧
      ((∀ x ∈ RSI alternatingSeries 14, ∃ r, x = some r ∧ 0 ≤ r ∧ r ≤ 100) ∧
        (∀ avgGain : ℚ, avgGain ≠ 0 → rsiPoint avgGain 0 = some 100)) :=
  ⟨⟨by decide, by norm_num [NonDegenerate, jsGains, jsLosses, jsDeltas, alternatingSeries]⟩,
   rsi_output_in_range alternatingSeries (by decide)
     (by norm_num [NonDegenerate, jsGains, jsLosses, jsDeltas, alternatingSeries])⟩

/-! ## C6: SMA length and window means -/

/-- C6: for `1 ≤ p ≤ len(s)`, `SMA(s, p)` has length `len(s) − p + 1` and
its `j`-th element is the exact arithmetic mean of the `j`-th trailing
window of `p` consecutive inputs. -/
theorem sma_window_mean (s : List ℚ) (p : ℕ) (h1 : 1 ≤ p) (h2 : p ≤ s.length) :
    (SMA s p).length = s.length - p + 1 ∧
      ∀ j, j < s.length - p + 1 →
        (SMA s p)[j]? = some (((s.drop j).take p).sum / p) := by
  have hcount : s.length - (p - 1) = s.length - p + 1 := by omega
  constructor
  · simp only [SMA, List.length_map, List.length_range']
    omega
  · intro j hj
    have hj2 : j < s.length - (p - 1) := by omega
    simp only [SMA, List.getElem?_map]
    rw [List.getElem?_range' _ _ hj2]
    show some (((s.drop (p - 1 + 1 * j + 1 - p)).take p).sum / p) = _
    have hidx : p - 1 + 1 * j + 1 - p = j := by omega
    rw [hidx]

/-- Witness for C6 on a concrete series and period. -/
theorem sma_window_mean_witness :
    (1 ≤ 2 ∧ 2 ≤ ([1, 2, 3, 4] : List ℚ).length) ∧
      ((SMA [1, 2, 3, 4] 2).length = ([1, 2, 3, 4] : List ℚ).length - 2 + 1 ∧
        ∀ j, j < ([1, 2, 3, 4] : List ℚ).length - 2 + 1 →
          (SMA [1, 2, 3, 4] 2)[j]? =
            some (((([1, 2, 3, 4] : List ℚ).drop j).take 2).sum / 2)) :=
  ⟨⟨by decide, by decide⟩, sma_window_mean [1, 2, 3, 4] 2 (by decide) (by decide)⟩

/-! ## C7: idempotence of the candle upsert on its natural key -/

lemma candleKey_updRow (c r : CandleRow) : candleKey (updRow c r) = candleKey r := by
  unfold updRow
  split_ifs with h
  · rfl
  · rfl

lemma candleKey_overwriteOHLC (c r : CandleRow) :
    candleKey (overwriteOHLC c r) = candleKey r := rfl

lemma upsert_any_iff (t : List CandleRow) (c : CandleRow) :
    (t.any fun r => decide (candleKey r = candleKey c)) = true ↔
      candleKey c ∈ t.map candleKey := by
  simp only [List.any_eq_true, decide_eq_true_eq, List.mem_map]

lemma upsert_pos {t : List CandleRow} {c : CandleRow}
    (h : candleKey c ∈ t.map candleKey) :
    upsertCandle t c = t.map (updRow c) := by
  unfold upsertCandle
  rw [if_pos ((upsert_any_iff t c).mpr h)]

lemma upsert_neg {t : List CandleRow} {c : CandleRow}
    (h : candleKey c ∉ t.map candleKey) :
    upsertCandle t c = t ++ [c] := by
  unfold upsertCandle
  rw [if_neg]
  intro hc
  exact h ((upsert_any_iff t c).mp hc)

lemma map_updRow_keys (t : List CandleRow) (c : CandleRow) :
    (t.map (updRow c)).map candleKey = t.map candleKey := by
  rw [List.map_map]
  exact List.map_congr_left fun r _ => candleKey_updRow c r

lemma countP_key_one (t : List CandleRow) (k : String × String × ℤ)
    (hnd : (t.map candleKey).Nodup) (hmem : k ∈ t.map candleKey) :
    t.countP (fun r => decide (candleKey r = k)) = 1 := by
  induction t with
  | nil => simp at hmem
  | cons r rs ih =>
    simp only [List.map_cons, List.nodup_cons] at hnd
    simp only [List.map_cons, List.mem_cons] at hmem
    rw [List.countP_cons]
    by_cases h : candleKey r = k
    · have h0 : rs.countP (fun r => decide (candleKey r = k)) = 0 := by
        apply List.countP_eq_zero.mpr
        intro x hx
        simp only [decide_eq_true_eq]
        intro hxk
        exact hnd.1 (h ▸ hxk ▸ List.mem_map_of_mem candleKey hx)
      simp [h, h0]
    · rcases hmem with hk | hmem2
      · exact absurd hk.symm h
      · rw [ih hnd.2 hmem2]
        simp [h]

/-- C7: on a table whose `(symbol, timeframe, timestamp)` keys are unique,
writing two candles with the same natural key in succession leaves exactly
one row for that key; the key is never duplicated; the surviving row holds
the OHLC of the latest write, while its volume is the one originally
stored for that key (the first write's volume when the key was new). -/
theorem candle_upsert_idempotent (t : List CandleRow) (c1 c2 : CandleRow)
    (hnd : (t.map candleKey).Nodup) (hk : candleKey c1 = candleKey c2) :
    ((upsertCandle (upsertCandle t c1) c2).countP
        (fun r => decide (candleKey r = candleKey c2))) = 1 ∧
      ((upsertCandle (upsertCandle t c1) c2).map candleKey).Nodup ∧
      (∃ r, (upsertCandle (upsertCandle t c1) c2).find?
            (fun r => decide (candleKey r = candleKey c2)) = some r ∧
        r.opn = c2.opn ∧ r.high = c2.high ∧ r.low = c2.low ∧ r.close = c2.close ∧
        r.volume = (match t.find? (fun x => decide (candleKey x = candleKey c1)) with
                    | some r0 => r0.volume
                    | none => c1.volume)) := by
  by_cases hmem : candleKey c1 ∈ t.map candleKey
  · -- the key already exists in the table: both writes are updates
    have e1 : upsertCandle t c1 = t.map (updRow c1) := upsert_pos hmem
    have ekeys1 : (upsertCandle t c1).map candleKey = t.map candleKey := by
      rw [e1, map_updRow_keys]
    have hmem2 : candleKey c2 ∈ (upsertCandle t c1).map candleKey := by
      rw [ekeys1, ← hk]
      exact hmem
    have e2 : upsertCandle (upsertCandle t c1) c2 =
        t.map (fun r => updRow c2 (updRow c1 r)) := by
      rw [upsert_pos hmem2, e1, List.map_map]
      rfl
    have hpf : ∀ r : CandleRow,
        candleKey (updRow c2 (updRow c1 r)) = candleKey r := by
      intro r
      rw [candleKey_updRow, candleKey_updRow]
    have hkeys2 : (upsertCandle (upsertCandle t c1) c2).map candleKey =
        t.map candleKey := by
      rw [e2, List.map_map]
      exact List.map_congr_left fun r _ => hpf r
    have hmemk : candleKey c2 ∈ t.map candleKey := hk ▸ hmem
    refine ⟨?_, ?_, ?_⟩
    · rw [e2, List.countP_map]
      rw [show ((fun r => decide (candleKey r = candleKey c2)) ∘
            fun r => updRow c2 (updRow c1 r)) =
          (fun r => decide (candleKey r = candleKey c2)) from
        funext fun r => by simp [Function.comp, hpf r]]
      exact countP_key_one t (candleKey c2) hnd hmemk
    · rw [hkeys2]
      exact hnd
    · -- locate the original row for the key
      have hex : ∃ x, x ∈ t ∧ (fun x => decide (candleKey x = candleKey c2)) x := by
        obtain ⟨r0, hr0, hkr0⟩ := List.mem_map.mp hmemk
        exact ⟨r0, hr0, by simp [hkr0]⟩
      obtain ⟨r0, hfind⟩ :=
        Option.isSome_iff_exists.mp (List.find?_isSome.mpr hex)
      have hkr0 : candleKey r0 = candleKey c2 := by
        have := List.find?_some hfind
        simpa using this
      have hfind2 : (upsertCandle (upsertCandle t c1) c2).find?
          (fun r => decide (candleKey r = candleKey c2)) =
            some (updRow c2 (updRow c1 r0)) := by
        rw [e2, List.find?_map]
        rw [show ((fun r => decide (candleKey r = candleKey c2)) ∘
              fun r => updRow c2 (updRow c1 r)) =
            (fun r => decide (candleKey r = candleKey c2)) from
          funext fun r => by simp [Function.comp, hpf r]]
        rw [hfind]
        rfl
      have hupd : updRow c2 (updRow c1 r0) = overwriteOHLC c2 (overwriteOHLC c1 r0) := by
        unfold updRow
        rw [if_pos (hkr0.trans hk.symm), if_pos]
        rw [candleKey_overwriteOHLC]
        exact hkr0
      have hfindt : t.find? (fun x => decide (candleKey x = candleKey c1)) = some r0 := by
        rw [show (fun x => decide (candleKey x = candleKey c1)) =
            (fun x => decide (candleKey x = candleKey c2)) from
          funext fun x => by rw [hk]]
        exact hfind
      refine ⟨updRow c2 (updRow c1 r0), hfind2, ?_, ?_, ?_, ?_, ?_⟩
      · rw [hupd]; rfl
      · rw [hupd]; rfl
      · rw [hupd]; rfl
      · rw [hupd]; rfl
      · rw [hupd, hfindt]
        rfl
  · -- the key is new: the first write inserts, the second updates it
    have e1 : upsertCandle t c1 = t ++ [c1] := upsert_neg hmem
    have hmem2 : candleKey c2 ∈ (upsertCandle t c1).map candleKey := by
      rw [e1, List.map_append, List.mem_append]
      right
      simp [hk]
    have hself : t.map (updRow c2) = t := by
      have : ∀ r ∈ t, updRow c2 r = r := by
        intro r hr
        unfold updRow
        rw [if_neg]
        intro hkr
        exact hmem (hk ▸ hkr ▸ List.mem_map_of_mem candleKey hr)
      calc t.map (updRow c2) = t.map id := List.map_congr_left fun r hr => this r hr
        _ = t := List.map_id t
    have hc1upd : updRow c2 c1 = overwriteOHLC c2 c1 := by
      unfold updRow
      rw [if_pos hk]
    have e2 : upsertCandle (upsertCandle t c1) c2 = t ++ [overwriteOHLC c2 c1] := by
      rw [upsert_pos hmem2, e1, List.map_append]
      simp only [List.map_cons, List.map_nil, hself, hc1upd]
    have hnok : ∀ x ∈ t, ¬ (candleKey x = candleKey c2) := by
      intro x hx hkx
      exact hmem (hk ▸ hkx ▸ List.mem_map_of_mem candleKey hx)
    have hkow : candleKey (overwriteOHLC c2 c1) = candleKey c2 := by
      rw [candleKey_overwriteOHLC, hk]
    refine ⟨?_, ?_, ?_⟩
    · rw [e2, List.countP_append]
      have h0 : t.countP (fun r => decide (candleKey r = candleKey c2)) = 0 :=
        List.countP_eq_zero.mpr (by intro x hx; simpa using hnok x hx)
      simp [h0, List.countP_cons, hkow]
    · rw [e2, List.map_append]
      simp only [List.map_cons, List.map_nil, hkow]
      rw [List.nodup_append]
      refine ⟨hnd, List.nodup_singleton _, ?_⟩
      intro k hkmem hk2
      simp only [List.mem_singleton] at hk2
      obtain ⟨x, hx, hkx⟩ := List.mem_map.mp hkmem
      exact hnok x hx (hk2 ▸ hkx)
    · have hfnone : t.find? (fun r => decide (candleKey r = candleKey c2)) = none :=
        List.find?_eq_none.mpr (by intro x hx; simpa using hnok x hx)
      have hfind2 : (upsertCandle (upsertCandle t c1) c2).find?
          (fun r => decide (candleKey r = candleKey c2)) =
            some (overwriteOHLC c2 c1) := by
        rw [e2, List.find?_append, hfnone]
        simp [List.find?, hkow]
      have hfindt : t.find? (fun x => decide (candleKey x = candleKey c1)) = none := by
        rw [show (fun x => decide (candleKey x = candleKey c1)) =
            (fun x => decide (candleKey x = candleKey c2)) from
          funext fun x => by rw [hk]]
        exact hfnone
      refine ⟨overwriteOHLC c2 c1, hfind2, rfl, rfl, rfl, rfl, ?_⟩
      rw [hfindt]
      rfl

/-- Table, first write and second write for the C7 witness (same key,
different OHLC; the pre-existing row holds volume 7). -/
def witnessTable : List CandleRow := [⟨"EURUSD", "5m", 100, 1, 2, 0, 1, 7⟩]

def witnessCandle1 : CandleRow := ⟨"EURUSD", "5m", 100, 3, 4, 2, 3, 0⟩

def witnessCandle2 : CandleRow := ⟨"EURUSD", "5m", 100, 5, 6, 4, 5, 0⟩

/-- Witness for C7. -/
theorem candle_upsert_idempotent_witness :
    ((witnessTable.map candleKey).Nodup ∧
        candleKey witnessCandle1 = candleKey witnessCandle2) ∧
      (((upsertCandle (upsertCandle witnessTable witnessCandle1) witnessCandle2).countP
          (fun r => decide (candleKey r = candleKey witnessCandle2))) = 1 ∧
        ((upsertCandle (upsertCandle witnessTable witnessCandle1)
            witnessCandle2).map candleKey).Nodup ∧
        (∃ r, (upsertCandle (upsertCandle witnessTable witnessCandle1)
              witnessCandle2).find?
              (fun r => decide (candleKey r = candleKey witnessCandle2)) = some r ∧
          r.opn = witnessCandle2.opn ∧ r.high = witnessCandle2.high ∧
          r.low = witnessCandle2.low ∧ r.close = witnessCandle2.close ∧
          r.volume =
            (match witnessTable.find?
                (fun x => decide (candleKey x = candleKey witnessCandle1)) with
             | some r0 => r0.volume
             | none => witnessCandle1.volume))) :=
  ⟨⟨by decide, by decide⟩,
   candle_upsert_idempotent witnessTable witnessCandle1 witnessCandle2
     (by decide) (by decide)⟩

/-! ## C8: the daily-trade cap skips a capped user -/

lemma executeAutoTradeCalls_eq_filter (users : List UserRow) :
    executeAutoTradeCalls users = (users.filter eligibleUser).map UserRow.id := by
  induction users with
  | nil => rfl
  | cons u rest ih =>
    by_cases h1 : u.trading_active <;> by_cases h2 : u.ai_active <;>
      by_cases h3 : u.dailyTrades ≥ u.max_daily_trades ∧ u.max_daily_trades ≠ -1 <;>
      simp [executeAutoTradeCalls, eligibleUser, h1, h2, h3, ih]

/-- C8: a user whose observed daily trade count has reached their
`max_daily_trades` cap (and whose cap is not the `-1` unlimited sentinel)
is skipped by the `executeAutoTrade` loop — `executeTrade` is never
invoked for them, so zero Trade inserts happen for them — while the loop
continues and forwards exactly the eligible users, in order. -/
theorem executeAutoTrade_skips_capped (users : List UserRow) (u : UserRow)
    (hmem : u ∈ users) (hcap : u.max_daily_trades ≤ u.dailyTrades)
    (hsent : u.max_daily_trades ≠ -1)
    (hids : (users.map UserRow.id).Nodup) :
    u.id ∉ executeAutoTradeCalls users ∧
      executeAutoTradeCalls users = (users.filter eligibleUser).map UserRow.id := by
  refine ⟨?_, executeAutoTradeCalls_eq_filter users⟩
  rw [executeAutoTradeCalls_eq_filter]
  intro hin
  obtain ⟨v, hvf, hvid⟩ := List.mem_map.mp hin
  have hvmem : v ∈ users := List.mem_of_mem_filter hvf
  have hvelig : eligibleUser v = true := List.of_mem_filter hvf
  have hvu : v = u := List.inj_on_of_nodup_map hids hvmem hmem hvid
  subst hvu
  simp [eligibleUser, hcap, hsent] at hvelig

/-- Two users for the C8 witness: user 1 at their cap (3 of 3), user 2
below it. -/
def cappedUsers : List UserRow := [⟨1, true, true, 3, 3⟩, ⟨2, true, true, 3, 2⟩]

def cappedUser : UserRow := ⟨1, true, true, 3, 3⟩

/-- Witness for C8: user 1 is skipped, user 2 is still forwarded. -/
theorem executeAutoTrade_skips_capped_witness :
    (cappedUser ∈ cappedUsers ∧ cappedUser.max_daily_trades ≤ cappedUser.dailyTrades ∧
        cappedUser.max_daily_trades ≠ -1 ∧ (cappedUsers.map UserRow.id).Nodup) ∧
      (cappedUser.id ∉ executeAutoTradeCalls cappedUsers ∧
        executeAutoTradeCalls cappedUsers =
          (cappedUsers.filter eligibleUser).map UserRow.id) :=
  ⟨⟨by decide, by decide, by decide, by decide⟩,
   executeAutoTrade_skips_capped cappedUsers cappedUser (by decide) (by decide)
     (by decide) (by decide)⟩

/-! ## C9: bounded reconnection, and what happens at exhaustion -/

/-- The connection state after a number of consecutive `close` events. -/
def stateAfterCloses : ConnState → ℕ → ConnState
  | s, 0 => s
  | s, n + 1 => stateAfterCloses (onClose s).1 n

/-- C9 counterexample: after the 5 reconnection attempts are used up, the
next `close` event emits only the regular `'disconnected'` event — no
fatal connectivity error event of any kind is emitted upward (the source
only calls `logger.error` and returns) — and schedules nothing. -/
theorem reconnect_exhaustion_counterexample :
    stateAfterCloses ⟨0⟩ 5 = ⟨5⟩ ∧
      (onClose ⟨5⟩).2.1 = [DerivEvent.disconnected] ∧
      DerivEvent.errorEvent ∉ (onClose ⟨5⟩).2.1 ∧
      (onClose ⟨5⟩).2.2 = none := by decide

lemma runCloses_spec : ∀ (n : ℕ) (s : ConnState),
    runCloses s n =
      List.replicate (min n (maxReconnectAttempts - s.reconnectAttempts))
        (some reconnectDelay) ++
      List.replicate (n - (maxReconnectAttempts - s.reconnectAttempts)) none := by
  intro n
  induction n with
  | zero => intro s; simp [runCloses]
  | succ n ih =>
    intro s
    have hr : runCloses s (n + 1) = (onClose s).2.2 :: runCloses (onClose s).1 n := rfl
    by_cases ha : s.reconnectAttempts ≥ maxReconnectAttempts
    · have h5 : maxReconnectAttempts - s.reconnectAttempts = 0 := by omega
      have e : onClose s = (s, [DerivEvent.disconnected], none) := by
        unfold onClose handleReconnect
        rw [if_pos ha]
      rw [hr, e]
      simp only
      rw [ih s, h5]
      simp [List.replicate_succ]
    · have e : onClose s =
          (⟨s.reconnectAttempts + 1⟩, [DerivEvent.disconnected], some reconnectDelay) := by
        unfold onClose handleReconnect
        rw [if_neg ha]
      rw [hr, e]
      simp only
      rw [ih ⟨s.reconnectAttempts + 1⟩]
      have h1 : min (n + 1) (maxReconnectAttempts - s.reconnectAttempts) =
          (min n (maxReconnectAttempts - (s.reconnectAttempts + 1))) + 1 := by
        unfold maxReconnectAttempts at *
        omega
      have h2 : (n + 1) - (maxReconnectAttempts - s.reconnectAttempts) =
          n - (maxReconnectAttempts - (s.reconnectAttempts + 1)) := by
        unfold maxReconnectAttempts at *
        omega
      rw [h1, h2, List.replicate_succ]
      rfl

/-- C9 amended: after a feed disconnect with every reconnection attempt
failing, the client schedules exactly `min n 5` reconnection attempts over
`n` close events, each after the fixed 5000 ms delay, and schedules
nothing once the attempts are exhausted; but at exhaustion it emits no
fatal connectivity error upward — every close event emits exactly the
regular `'disconnected'` event. -/
theorem reconnect_bounded_no_fatal_emit :
    (∀ n : ℕ, runCloses ⟨0⟩ n =
        List.replicate (min n maxReconnectAttempts) (some reconnectDelay) ++
          List.replicate (n - maxReconnectAttempts) none) ∧
      (∀ s : ConnState, (onClose s).2.1 = [DerivEvent.disconnected] ∧
        DerivEvent.errorEvent ∉ (onClose s).2.1) := by
  constructor
  · intro n
    have := runCloses_spec n ⟨0⟩
    simpa using this
  · intro s
    refine ⟨rfl, ?_⟩
    intro h
    have e : (onClose s).2.1 = [DerivEvent.disconnected] := rfl
    rw [e] at h
    simp at h

/-! ## C10: candle-event sampling is global, not per-symbol -/

/-- An interleaved two-symbol feed for the C10 counterexample. -/
def twoSymbolEvents : List String :=
  ["A", "B", "A", "B", "A", "B", "A", "B", "A"]

/-- C10 counterexample: with symbols A and B alternating, the one analysis
of the first five events fires at event 5 — for symbol A, which has seen
only 3 candle events by then — and A's actual 5th candle event (event 9,
global count 9) triggers no analysis.  So analysis is *not* triggered
exactly on every 5th candle event of the symbol. -/
theorem candle_sampling_counterexample :
    runCandles ⟨0⟩ twoSymbolEvents =
      [none, none, none, none, some "A", none, none, none, none] ∧
      (twoSymbolEvents.take 5).count "A" = 3 ∧
      (twoSymbolEvents.take 9).count "A" = 5 := by decide

/-- C10 amended: the sampling counter `candlesReceived` is global across
all symbols: the `i`-th candle event of a run starting at global count `c`
triggers one analysis — for that event's symbol — exactly when the
incremented global count `c + i + 1` is a multiple of 5.  (For a
single-symbol feed this coincides with every 5th candle of that symbol.) -/
theorem candle_sampling_global (evs : List String) (c i : ℕ)
    (hi : i < evs.length) :
    (runCandles ⟨c⟩ evs)[i]? =
      some (if (c + i + 1) % 5 = 0 then evs[i]? else none) := by
  induction evs generalizing c i with
  | nil => simp at hi
  | cons sym rest ih =>
    have hr : runCandles ⟨c⟩ (sym :: rest) =
        (if shouldAnalyzeCandle ⟨c + 1⟩ then some sym else none) ::
          runCandles ⟨c + 1⟩ rest := rfl
    cases i with
    | zero =>
      rw [hr]
      simp only [List.getElem?_cons_zero]
      by_cases h : (c + 1) % 5 = 0 <;>
        simp [shouldAnalyzeCandle, h]
    | succ j =>
      rw [hr]
      simp only [List.getElem?_cons_succ]
      have hrec := ih (c + 1) j (by simpa using hi)
      have harith : c + 1 + j + 1 = c + (j + 1) + 1 := by omega
      rw [harith] at hrec
      exact hrec

/-- A five-event single-symbol-per-event feed for the C10 witness. -/
def fiveEvents : List String := ["V", "W", "X", "Y", "Z"]

/-- Witness for the amended C10 at the fifth event of a fresh run. -/
theorem candle_sampling_global_witness :
    (4 < fiveEvents.length) ∧
      (runCandles ⟨0⟩ fiveEvents)[4]? =
        some (if (0 + 4 + 1) % 5 = 0 then fiveEvents[4]? else none) :=
  ⟨by decide, candle_sampling_global fiveEvents 0 4 (by decide)⟩

end ForexTrade
